import Mathlib

/-!
Shallow embedding of the rate limiter in
src/api/cassiopeia/cassiopeia/type/api/rates.py.

The Python code guards shared state with one exclusive lock per limiter and a
counting semaphore for admission.  Here we model the sequential (single caller,
lock-atomic) semantics as explicit state-passing functions:

fields of SingleRateLimiter mirror the Python attributes; the semaphore is its
non-negative token count; an operation that would block on semaphore.acquire
returns none.  A wrapped operation (the Python method with *args) becomes an
Option-wrapped function into Except, where Except.error models a raised
exception.  Wall-clock time is an explicit natural-number parameter now; a
threading.Timer scheduled for d seconds in the future is recorded by its fire
time now + d.  The extra ghost field liveTimers records the fire times of every
threading.Timer object that has been started and neither cancelled nor fired,
so claims about pending timers (cancel-and-replace in reset_in) are statable;
the Python runtime maintains this set implicitly.
-/

/-- Does an Except-valued outcome count as a successful call (no exception)? -/
def isSuccess {ε β : Type} : Except ε β → Bool
  | Except.ok _ => true
  | Except.error _ => false

/-- Evaluation of the optional wrapped operation, mirroring the Python
expression (method(*args) if method else None): an absent method yields the
null result, a present method is applied to the arguments and may raise. -/
def evalMethod {α ε β : Type} (method : Option (α → Except ε β)) (args : α) :
    Except ε (Option β) :=
  match method with
  | none => Except.ok none
  | some f =>
    match f args with
    | Except.ok b => Except.ok (some b)
    | Except.error e => Except.error e

/-- State of a SingleRateLimiter: the Python instance attributes, plus the
ghost field liveTimers (fire times of started, uncancelled, unfired timers).
The resetter field holds the fire time of the timer it references. -/
structure SingleRateLimiter where
  seconds_per_epoch : ℕ
  semaphore : ℕ
  current : ℤ
  limit : ℕ
  resetter : Option ℕ
  _total_calls : ℤ
  _successful_calls : ℤ
  liveTimers : List ℕ
deriving DecidableEq

namespace SingleRateLimiter

/-- Constructor: SingleRateLimiter(calls_per_epoch, seconds_per_epoch). -/
def init (calls_per_epoch seconds_per_epoch : ℕ) : SingleRateLimiter :=
  { seconds_per_epoch := seconds_per_epoch
    semaphore := calls_per_epoch
    current := 0
    limit := calls_per_epoch
    resetter := none
    _total_calls := 0
    _successful_calls := 0
    liveTimers := [] }

/-- The call method.  Returns none when semaphore.acquire would block
(no token available); otherwise returns the post-state and the outcome that
call returns or re-raises.  The steps mirror the source: acquire a token,
increment current, run the method, then in the finally block start an epoch
timer when none is pending, decrement current, increment the counters. -/
def call {α ε β : Type} (s : SingleRateLimiter) (now : ℕ)
    (method : Option (α → Except ε β)) (args : α) :
    Option (SingleRateLimiter × Except ε (Option β)) :=
  if s.semaphore = 0 then none
  else
    let s1 := { s with semaphore := s.semaphore - 1, current := s.current + 1 }
    let res := evalMethod method args
    let successful_call := isSuccess res
    let s2 :=
      if s1.resetter.isNone then
        { s1 with resetter := some (now + s1.seconds_per_epoch)
                  liveTimers := s1.liveTimers ++ [now + s1.seconds_per_epoch] }
      else s1
    let s3 :=
      { s2 with current := s2.current - 1
                _total_calls := s2._total_calls + 1
                _successful_calls :=
                  s2._successful_calls + (if successful_call then 1 else 0) }
    some (s3, res)

/-- The state produced by a non-blocking call step, as a function of the
pre-state, the wall-clock time, and whether the wrapped operation succeeded.
This names the post-state that the call definition above computes; the lemma
call_eq below proves the two agree. -/
def callPost (s : SingleRateLimiter) (now : ℕ) (successful_call : Bool) :
    SingleRateLimiter :=
  { s with
      semaphore := s.semaphore - 1
      resetter :=
        if s.resetter.isNone then some (now + s.seconds_per_epoch)
        else s.resetter
      liveTimers :=
        if s.resetter.isNone then s.liveTimers ++ [now + s.seconds_per_epoch]
        else s.liveTimers
      _total_calls := s._total_calls + 1
      _successful_calls :=
        s._successful_calls + (if successful_call then 1 else 0) }

/-- The _drain method: repeatedly take tokens without blocking until none
remain, leaving the semaphore at zero. -/
def _drain (s : SingleRateLimiter) : SingleRateLimiter :=
  { s with semaphore := 0 }

/-- The _reset method, run as the body of a fired timer: drain all available
tokens, release limit - current tokens (a Python range, so none when the
difference is negative), and clear the resetter marker.  The fired timer — the
one the resetter referenced — leaves the set of live timers. -/
def _reset (s : SingleRateLimiter) : SingleRateLimiter :=
  { s._drain with
      semaphore := ((s.limit : ℤ) - s.current).toNat
      resetter := none
      liveTimers :=
        match s.resetter with
        | some t => s.liveTimers.erase t
        | none => s.liveTimers }

/-- The wait method: acquire then immediately release, so the state is
unchanged; none when no token is available (the acquire would block). -/
def wait (s : SingleRateLimiter) : Option Unit :=
  if s.semaphore = 0 then none else some ()

/-- The reset_in method: cancel the pending timer if any (removing it from
the live set), drain all tokens, and start a fresh timer firing after the
given number of seconds. -/
def reset_in (s : SingleRateLimiter) (now seconds : ℕ) : SingleRateLimiter :=
  let live1 :=
    match s.resetter with
    | some t => s.liveTimers.erase t
    | none => s.liveTimers
  { s with semaphore := 0
           resetter := some (now + seconds)
           liveTimers := live1 ++ [now + seconds] }

/-- The _decrease_successful_calls method. -/
def _decrease_successful_calls (s : SingleRateLimiter) : SingleRateLimiter :=
  { s with _successful_calls := s._successful_calls - 1 }

/-- The calls property: the (successful calls, total calls) pair. -/
def calls (s : SingleRateLimiter) : ℤ × ℤ :=
  (s._successful_calls, s._total_calls)

/-- The resetter reference always tracks exactly the live timers: the limiter
never has a started timer it is not referencing.  Holds of a fresh limiter and
is preserved by every operation. -/
def timerInv (s : SingleRateLimiter) : Prop :=
  s.liveTimers = s.resetter.toList

/-- Run a sequence of call invocations; each event gives the wall-clock time
of the call and whether the wrapped operation raises.  The whole run is none
as soon as one call would block. -/
def runCalls : SingleRateLimiter → List (ℕ × Bool) → Option SingleRateLimiter
  | s, [] => some s
  | s, ev :: rest =>
    (call s ev.1
        (some fun _ : PUnit =>
          if ev.2 then (Except.error PUnit.unit : Except PUnit PUnit)
          else Except.ok PUnit.unit)
        PUnit.unit).bind
      fun p => runCalls p.1 rest

/-- Number of events in a call sequence whose wrapped operation raises. -/
def numFails (evs : List (ℕ × Bool)) : ℕ :=
  (evs.filter fun e => e.2).length

end SingleRateLimiter

/-- Return type of the MultiRateLimiter calls property, which in Python is
either a (successful, total) tuple or the bare int 0 sentinel. -/
inductive CallsResult where
  | pair (successful total : ℤ)
  | sentinel (n : ℕ)
deriving DecidableEq

/-- State of a MultiRateLimiter: its ordered list of member limiters. -/
structure MultiRateLimiter where
  limits : List SingleRateLimiter
deriving DecidableEq

/-- Sequential wait over the members, as in MultiRateLimiter.wait: blocks
(returns none) as soon as one member has no token available. -/
def seqWait : List SingleRateLimiter → Option Unit
  | [] => some ()
  | l :: rest => (SingleRateLimiter.wait l).bind fun _ => seqWait rest

/-- The per-member bookkeeping loop in the finally block of
MultiRateLimiter.call: each member runs its own call with no method (counting
one token and one optimistically successful call), and on failure the success
increment is undone by _decrease_successful_calls. -/
def seqCount (now : ℕ) (successful_call : Bool) :
    List SingleRateLimiter → Option (List SingleRateLimiter)
  | [] => some []
  | l :: rest =>
    (SingleRateLimiter.call l now
        (none : Option (PUnit → Except PUnit PUnit)) PUnit.unit).bind
      fun p =>
        let l1 :=
          if successful_call then p.1
          else SingleRateLimiter._decrease_successful_calls p.1
        (seqCount now successful_call rest).map fun rs => l1 :: rs

namespace MultiRateLimiter

/-- Constructor: MultiRateLimiter(*limits), building one SingleRateLimiter
per (calls_per_epoch, seconds_per_epoch) pair. -/
def init (ls : List (ℕ × ℕ)) : MultiRateLimiter :=
  { limits := ls.map fun p => SingleRateLimiter.init p.1 p.2 }

/-- The wait method: wait on every member in order. -/
def wait (m : MultiRateLimiter) : Option Unit :=
  seqWait m.limits

/-- The call method: wait until every member reports a token, run the method,
then update every member and return the result or re-raise the failure. -/
def call {α ε β : Type} (m : MultiRateLimiter) (now : ℕ)
    (method : Option (α → Except ε β)) (args : α) :
    Option (MultiRateLimiter × Except ε (Option β)) :=
  (wait m).bind fun _ =>
    let res := evalMethod method args
    let successful_call := isSuccess res
    (seqCount now successful_call m.limits).map fun ls =>
      ({ limits := ls }, res)

/-- The reset_in method: forward to every member. -/
def reset_in (m : MultiRateLimiter) (now seconds : ℕ) : MultiRateLimiter :=
  { limits := m.limits.map fun l => l.reset_in now seconds }

/-- The calls property: the first member's pair, or the int 0 sentinel when
there are no members. -/
def calls (m : MultiRateLimiter) : CallsResult :=
  match m.limits with
  | [] => CallsResult.sentinel 0
  | l :: _ => CallsResult.pair l._successful_calls l._total_calls

/-- Run a number of composite call invocations (no method) at a fixed time;
none as soon as one would block. -/
def mrunCalls : MultiRateLimiter → ℕ → ℕ → Option MultiRateLimiter
  | m, _, 0 => some m
  | m, now, k + 1 =>
    (call m now (none : Option (PUnit → Except PUnit PUnit)) PUnit.unit).bind
      fun p => mrunCalls p.1 now k

end MultiRateLimiter

/-! Helper lemmas about a single call step. -/

namespace SingleRateLimiter

/-- A call with no token available blocks. -/
lemma call_blocked {α ε β : Type} (s : SingleRateLimiter) (now : ℕ)
    (method : Option (α → Except ε β)) (args : α) (h : s.semaphore = 0) :
    s.call now method args = none := by
  simp [call, h]

/-- Explicit form of a non-blocking call step. -/
lemma call_eq {α ε β : Type} (s : SingleRateLimiter) (now : ℕ)
    (method : Option (α → Except ε β)) (args : α) (h : s.semaphore ≠ 0) :
    s.call now method args =
      some (s.callPost now (isSuccess (evalMethod method args)),
        evalMethod method args) := by
  by_cases hr : s.resetter.isNone <;> simp [call, callPost, h, hr]

@[simp] lemma callPost_semaphore (s : SingleRateLimiter) (now : ℕ) (b : Bool) :
    (s.callPost now b).semaphore = s.semaphore - 1 := rfl

@[simp] lemma callPost_current (s : SingleRateLimiter) (now : ℕ) (b : Bool) :
    (s.callPost now b).current = s.current := rfl

@[simp] lemma callPost_limit (s : SingleRateLimiter) (now : ℕ) (b : Bool) :
    (s.callPost now b).limit = s.limit := rfl

@[simp] lemma callPost_seconds (s : SingleRateLimiter) (now : ℕ) (b : Bool) :
    (s.callPost now b).seconds_per_epoch = s.seconds_per_epoch := rfl

@[simp] lemma callPost_total (s : SingleRateLimiter) (now : ℕ) (b : Bool) :
    (s.callPost now b)._total_calls = s._total_calls + 1 := rfl

@[simp] lemma callPost_successful (s : SingleRateLimiter) (now : ℕ) (b : Bool) :
    (s.callPost now b)._successful_calls =
      s._successful_calls + (if b then 1 else 0) := rfl

end SingleRateLimiter

namespace SingleRateLimiter

/-- Running a completed call sequence adds the number of events to the total
counter, adds the number of non-raising events to the success counter, and
leaves current and limit unchanged. -/
lemma runCalls_counts (evs : List (ℕ × Bool)) :
    ∀ s s', runCalls s evs = some s' →
      s'._total_calls = s._total_calls + evs.length ∧
      s'._successful_calls =
        s._successful_calls + (evs.length : ℤ) - (numFails evs : ℤ) ∧
      s'.current = s.current ∧ s'.limit = s.limit := by
  induction evs with
  | nil =>
    intro s s' h
    simp only [runCalls, Option.some.injEq] at h
    subst h
    simp [numFails]
  | cons ev rest ih =>
    intro s s' h
    simp only [runCalls] at h
    by_cases hs : s.semaphore = 0
    · rw [call_blocked _ _ _ _ hs] at h
      exact absurd h (by simp)
    · rw [call_eq _ _ _ _ hs, Option.some_bind] at h
      obtain ⟨ht, hsc, hc, hl⟩ := ih _ _ h
      simp only [callPost_total, callPost_successful, callPost_current,
        callPost_limit] at ht hsc hc hl
      refine ⟨?_, ?_, hc, hl⟩
      · rw [ht, List.length_cons]
        push_cast
        ring
      · rw [hsc]
        have hnf : numFails (ev :: rest) = (if ev.2 then 1 else 0) + numFails rest := by
          cases hb : ev.2 <;> simp [numFails, hb] <;> omega
        rw [hnf, List.length_cons]
        cases hb : ev.2 <;> simp [hb, evalMethod, isSuccess] <;> push_cast <;> ring

end SingleRateLimiter

namespace SingleRateLimiter

/-- Running the concatenation of two call sequences is running one after the
other. -/
lemma runCalls_append (a b : List (ℕ × Bool)) :
    ∀ s, runCalls s (a ++ b) = (runCalls s a).bind fun s1 => runCalls s1 b := by
  induction a with
  | nil => intro s; simp [runCalls]
  | cons ev rest ih =>
    intro s
    simp only [List.cons_append, runCalls, Option.bind_assoc]
    rcases call s ev.1 _ PUnit.unit with _ | p
    · rfl
    · exact ih p.1

/-- Running k non-raising calls from a state with at least k tokens completes,
consumes exactly k tokens, and leaves current and limit unchanged. -/
lemma runCalls_replicate (now : ℕ) :
    ∀ (k : ℕ) (s : SingleRateLimiter), k ≤ s.semaphore →
      ∃ s', runCalls s (List.replicate k (now, false)) = some s' ∧
        s'.semaphore = s.semaphore - k ∧ s'.current = s.current ∧
        s'.limit = s.limit := by
  intro k
  induction k with
  | zero =>
    intro s _
    exact ⟨s, by simp [runCalls], by simp, rfl, rfl⟩
  | succ k ih =>
    intro s hk
    have hs : s.semaphore ≠ 0 := by omega
    rw [List.replicate_succ]
    simp only [runCalls]
    rw [call_eq _ _ _ _ hs, Option.some_bind]
    obtain ⟨s', h1, h2, h3, h4⟩ := ih (s.callPost now true)
      (by rw [callPost_semaphore]; omega)
    refine ⟨s', h1, ?_, by rw [h3, callPost_current], by rw [h4, callPost_limit]⟩
    rw [h2, callPost_semaphore]
    omega

end SingleRateLimiter

open SingleRateLimiter in
/-- C1: after any sequence of K completed call invocations of which F raised
an error, a fresh SingleRateLimiter reports stats (K - F, K): successfulCalls
is the number of non-failing calls and totalCalls the number of all calls. -/
theorem claim_C1_stats_after_calls (C E : ℕ) (evs : List (ℕ × Bool))
    (s' : SingleRateLimiter)
    (h : runCalls (init C E) evs = some s') :
    s'.calls = ((evs.length : ℤ) - (numFails evs : ℤ), (evs.length : ℤ)) := by
  obtain ⟨ht, hsc, -, -⟩ := runCalls_counts evs _ _ h
  have h0t : (init C E)._total_calls = 0 := rfl
  have h0s : (init C E)._successful_calls = 0 := rfl
  rw [h0t] at ht
  rw [h0s] at hsc
  unfold SingleRateLimiter.calls
  rw [ht, hsc]
  simp

open SingleRateLimiter in
/-- Witness for C1 at a fresh limiter of capacity 2 running one failing and
one succeeding call. -/
theorem claim_C1_stats_after_calls_witness :
    SingleRateLimiter.calls ⟨1, 0, 0, 2, some 1, 2, 1, [1]⟩ =
      ((([(0, true), (0, false)] : List (ℕ × Bool)).length : ℤ) -
          (numFails [(0, true), (0, false)] : ℤ),
        (([(0, true), (0, false)] : List (ℕ × Bool)).length : ℤ)) :=
  claim_C1_stats_after_calls 2 1 [(0, true), (0, false)] _ (by decide)

open SingleRateLimiter in
/-- C3: when the wrapped operation raises, call re-raises that error
unchanged, and the exit bookkeeping still runs first: current (inFlight)
is back to its pre-call value, totalCalls is incremented, and
successfulCalls is not. -/
theorem claim_C3_error_propagates_after_bookkeeping {α ε β : Type}
    (s : SingleRateLimiter) (now : ℕ) (f : α → Except ε β) (args : α) (e : ε)
    (htok : s.semaphore ≠ 0) (hf : f args = Except.error e) :
    (s.call now (some f) args).map
        (fun p => (p.2, p.1.current, p.1._total_calls, p.1._successful_calls)) =
      some (Except.error e, s.current, s._total_calls + 1,
        s._successful_calls) := by
  rw [call_eq _ _ _ _ htok]
  simp [evalMethod, hf, isSuccess]

open SingleRateLimiter in
/-- Witness for C3 at a fresh limiter of capacity 1 and an operation that
always raises. -/
theorem claim_C3_error_propagates_after_bookkeeping_witness :
    ((init 1 1).call 0
        (some fun _ : PUnit => (Except.error PUnit.unit : Except PUnit PUnit))
        PUnit.unit).map
        (fun p => (p.2, p.1.current, p.1._total_calls, p.1._successful_calls)) =
      some (Except.error PUnit.unit, (init 1 1).current,
        (init 1 1)._total_calls + 1, (init 1 1)._successful_calls) :=
  claim_C3_error_propagates_after_bookkeeping (init 1 1) 0 _ PUnit.unit
    PUnit.unit (by decide) rfl

open SingleRateLimiter in
/-- C5: immediately after _reset, the available tokens equal capacity minus
the in-flight count at the moment of the reset, and never exceed capacity. -/
theorem claim_C5_reset_restores_capacity_minus_inflight
    (s : SingleRateLimiter) (h0 : 0 ≤ s.current)
    (h1 : s.current ≤ (s.limit : ℤ)) :
    ((s._reset.semaphore : ℤ) = (s.limit : ℤ) - s.current) ∧
      s._reset.semaphore ≤ s.limit := by
  have hsem : s._reset.semaphore = ((s.limit : ℤ) - s.current).toNat := rfl
  refine ⟨?_, ?_⟩ <;> rw [hsem] <;> omega

open SingleRateLimiter in
/-- Witness for C5 at a limiter of capacity 3 with one call in flight. -/
theorem claim_C5_reset_restores_capacity_minus_inflight_witness :
    (((SingleRateLimiter._reset ⟨1, 5, 1, 3, none, 0, 0, []⟩).semaphore : ℤ) =
        ((⟨1, 5, 1, 3, none, 0, 0, []⟩ : SingleRateLimiter).limit : ℤ) -
          (⟨1, 5, 1, 3, none, 0, 0, []⟩ : SingleRateLimiter).current) ∧
      (SingleRateLimiter._reset ⟨1, 5, 1, 3, none, 0, 0, []⟩).semaphore ≤
        (⟨1, 5, 1, 3, none, 0, 0, []⟩ : SingleRateLimiter).limit :=
  claim_C5_reset_restores_capacity_minus_inflight ⟨1, 5, 1, 3, none, 0, 0, []⟩
    (by decide) (by decide)

open SingleRateLimiter in
/-- C8: a call with no operation still consumes one token, increments both
totalCalls and successfulCalls, and returns the null result. -/
theorem claim_C8_absent_method_counts_as_success (s : SingleRateLimiter)
    (now : ℕ) (htok : s.semaphore ≠ 0) :
    (s.call now (none : Option (PUnit → Except PUnit PUnit)) PUnit.unit).map
        (fun p =>
          (p.2, p.1.semaphore, p.1._total_calls, p.1._successful_calls)) =
      some (Except.ok none, s.semaphore - 1, s._total_calls + 1,
        s._successful_calls + 1) := by
  rw [call_eq _ _ _ _ htok]
  simp [evalMethod, isSuccess]

open SingleRateLimiter in
/-- Witness for C8 at a fresh limiter of capacity 2. -/
theorem claim_C8_absent_method_counts_as_success_witness :
    ((init 2 7).call 3 (none : Option (PUnit → Except PUnit PUnit))
        PUnit.unit).map
        (fun p =>
          (p.2, p.1.semaphore, p.1._total_calls, p.1._successful_calls)) =
      some (Except.ok none, (init 2 7).semaphore - 1,
        (init 2 7)._total_calls + 1, (init 2 7)._successful_calls + 1) :=
  claim_C8_absent_method_counts_as_success (init 2 7) 3 (by decide)

namespace SingleRateLimiter

/-- A reset_in step on a limiter whose resetter tracks its live timers leaves
exactly one live timer, the fresh one, and preserves the tracking. -/
lemma reset_in_liveTimers (u : SingleRateLimiter) (hu : u.timerInv)
    (a b : ℕ) :
    (u.reset_in a b).liveTimers = [a + b] ∧ (u.reset_in a b).timerInv := by
  unfold timerInv at hu
  cases hr : u.resetter <;>
    simp_all [reset_in, timerInv, hr]

end SingleRateLimiter

open SingleRateLimiter in
/-- C9: reset_in cancels the pending scheduled reset before scheduling a new
one: after reset_in with delay T1 at time t1 and then reset_in with delay T2
at time t2, exactly one timer is live, it fires at t2 + T2 and not at
t1 + T1, and the one-pending-timer tracking is preserved. -/
theorem claim_C9_reset_in_cancels_pending (s : SingleRateLimiter)
    (hinv : s.timerInv) (t1 T1 t2 T2 : ℕ) (hne : t1 + T1 ≠ t2 + T2) :
    ((s.reset_in t1 T1).reset_in t2 T2).liveTimers = [t2 + T2] ∧
      (t1 + T1) ∉ ((s.reset_in t1 T1).reset_in t2 T2).liveTimers ∧
      ((s.reset_in t1 T1).reset_in t2 T2).liveTimers.length ≤ 1 ∧
      ((s.reset_in t1 T1).reset_in t2 T2).timerInv := by
  obtain ⟨-, hv1⟩ := reset_in_liveTimers s hinv t1 T1
  obtain ⟨hl2, hv2⟩ := reset_in_liveTimers (s.reset_in t1 T1) hv1 t2 T2
  refine ⟨hl2, ?_, ?_, hv2⟩
  · rw [hl2]
    simp [hne]
  · rw [hl2]
    simp

open SingleRateLimiter in
/-- Witness for C9 at a fresh limiter, scheduling a reset for time 5 and then
one for time 7. -/
theorem claim_C9_reset_in_cancels_pending_witness :
    (((init 2 1).reset_in 0 5).reset_in 3 4).liveTimers = [3 + 4] ∧
      (0 + 5) ∉ (((init 2 1).reset_in 0 5).reset_in 3 4).liveTimers ∧
      (((init 2 1).reset_in 0 5).reset_in 3 4).liveTimers.length ≤ 1 ∧
      (((init 2 1).reset_in 0 5).reset_in 3 4).timerInv :=
  claim_C9_reset_in_cancels_pending (init 2 1) rfl 0 5 3 4 (by decide)

open SingleRateLimiter in
/-- C4: from a fresh limiter of positive capacity C, each of the first C
calls is admitted without blocking and consumes exactly one token (after k
admissions C - k tokens remain, so the pool starts at exactly C), the
(C+1)-th call blocks, and once a reset fires the blocked call is admitted. -/
theorem claim_C4_first_C_calls_admitted (C E now k : ℕ) (hC : 0 < C)
    (hk : k ≤ C) :
    ((runCalls (init C E) (List.replicate k (now, false))).map
        fun s => s.semaphore) = some (C - k) ∧
      runCalls (init C E) (List.replicate (C + 1) (now, false)) = none ∧
      ((runCalls (init C E) (List.replicate C (now, false))).bind fun s =>
          s._reset.call now (none : Option (PUnit → Except PUnit PUnit))
            PUnit.unit).isSome = true := by
  have hsem0 : (init C E).semaphore = C := rfl
  obtain ⟨sk, hk1, hk2, -, -⟩ :=
    runCalls_replicate now k (init C E) (by rw [hsem0]; omega)
  obtain ⟨sC, hC1, hC2, hC3, hC4⟩ :=
    runCalls_replicate now C (init C E) (by rw [hsem0])
  have hCcur : sC.current = 0 := by rw [hC3]; rfl
  have hClim : sC.limit = C := by rw [hC4]; rfl
  have hCsem : sC.semaphore = 0 := by rw [hC2, hsem0]; omega
  refine ⟨?_, ?_, ?_⟩
  · rw [hk1, Option.map_some', hk2, hsem0]
  · rw [List.replicate_succ', runCalls_append, hC1, Option.some_bind]
    simp only [runCalls]
    rw [call_blocked _ _ _ _ hCsem]
    rfl
  · rw [hC1, Option.some_bind]
    have hres : sC._reset.semaphore ≠ 0 := by
      have : sC._reset.semaphore = ((sC.limit : ℤ) - sC.current).toNat := rfl
      rw [this, hCcur, hClim]
      omega
    rw [call_eq _ _ _ _ hres]
    rfl

open SingleRateLimiter in
/-- Witness for C4 at capacity 2, epoch 1, one admitted call. -/
theorem claim_C4_first_C_calls_admitted_witness :
    ((runCalls (init 2 1) (List.replicate 1 (0, false))).map
        fun s => s.semaphore) = some (2 - 1) ∧
      runCalls (init 2 1) (List.replicate (2 + 1) (0, false)) = none ∧
      ((runCalls (init 2 1) (List.replicate 2 (0, false))).bind fun s =>
          s._reset.call 0 (none : Option (PUnit → Except PUnit PUnit))
            PUnit.unit).isSome = true :=
  claim_C4_first_C_calls_admitted 2 1 0 1 (by decide) (by decide)

/-! Helper lemmas about the composite limiter. -/

/-- Sequential wait completes when every member has a token. -/
lemma seqWait_some (ls : List SingleRateLimiter)
    (h : ∀ l ∈ ls, l.semaphore ≠ 0) : seqWait ls = some () := by
  induction ls with
  | nil => rfl
  | cons l rest ih =>
    have hl : l.semaphore ≠ 0 := h l (by simp)
    simp only [seqWait, SingleRateLimiter.wait, hl, if_neg hl, Option.some_bind]
    exact ih fun x hx => h x (by simp [hx])

/-- Sequential wait blocks when some member has no token. -/
lemma seqWait_none (ls : List SingleRateLimiter)
    (h : ∃ l ∈ ls, l.semaphore = 0) : seqWait ls = none := by
  induction ls with
  | nil => simp at h
  | cons l rest ih =>
    by_cases hl : l.semaphore = 0
    · simp [seqWait, SingleRateLimiter.wait, hl]
    · rcases h with ⟨x, hx, hx0⟩
      rcases List.mem_cons.mp hx with rfl | hx'
      · exact absurd hx0 hl
      · simp only [seqWait, SingleRateLimiter.wait, if_neg hl, Option.some_bind]
        exact ih ⟨x, hx', hx0⟩

/-- The per-member accounting loop completes when every member has a token,
and its effect on each member is one more total call, one more token used,
and one more successful call exactly when the composite operation succeeded. -/
lemma seqCount_spec (now : ℕ) (successful_call : Bool)
    (ls : List SingleRateLimiter) (h : ∀ l ∈ ls, l.semaphore ≠ 0) :
    ∃ ls', seqCount now successful_call ls = some ls' ∧
      ls'.map (fun l => (l._total_calls, l._successful_calls)) =
        ls.map (fun l =>
          (l._total_calls + 1,
            l._successful_calls + (if successful_call then 1 else 0))) ∧
      ls'.map (fun l => l.semaphore) =
        ls.map (fun l => l.semaphore - 1) := by
  induction ls with
  | nil => exact ⟨[], rfl, rfl, rfl⟩
  | cons l rest ih =>
    have hl : l.semaphore ≠ 0 := h l (by simp)
    obtain ⟨rs, h1, h2, h3⟩ := ih fun x hx => h x (by simp [hx])
    simp only [seqCount, SingleRateLimiter.call_eq _ _ _ _ hl, Option.some_bind,
      h1, Option.map_some']
    refine ⟨_, rfl, ?_, ?_⟩
    · simp only [List.map_cons, h2, List.cons.injEq, and_true]
      cases successful_call <;>
        simp [SingleRateLimiter._decrease_successful_calls, evalMethod,
          isSuccess]
    · simp only [List.map_cons, h3, List.cons.injEq, and_true]
      cases successful_call <;>
        simp [SingleRateLimiter._decrease_successful_calls]

open SingleRateLimiter in
/-- C2: when the wrapped operation of a composite call raises, the failure is
re-raised to the caller only after every member has been updated, and the net
effect on every member is exactly one additional total call and zero
additional successful calls. -/
theorem claim_C2_composite_failure_net_effect {α ε β : Type}
    (m : MultiRateLimiter) (now : ℕ) (f : α → Except ε β) (args : α) (e : ε)
    (hne : m.limits ≠ []) (htok : ∀ l ∈ m.limits, l.semaphore ≠ 0)
    (hf : f args = Except.error e) :
    (m.call now (some f) args).map (fun p =>
        (p.2, p.1.limits.map fun l => (l._total_calls, l._successful_calls))) =
      some (Except.error e,
        m.limits.map fun l => (l._total_calls + 1, l._successful_calls)) := by
  have hE : evalMethod (some f) args = Except.error e := by
    simp [evalMethod, hf]
  obtain ⟨ls', h1, h2, -⟩ := seqCount_spec now false m.limits htok
  simp only [MultiRateLimiter.call, MultiRateLimiter.wait, seqWait_some _ htok,
    Option.some_bind, hE, isSuccess, h1, Option.map_some']
  rw [h2]
  simp

open SingleRateLimiter in
/-- Witness for C2 on a one-member composite with an operation that raises. -/
theorem claim_C2_composite_failure_net_effect_witness :
    ((⟨[init 1 1]⟩ : MultiRateLimiter).call 0
        (some fun _ : PUnit => (Except.error PUnit.unit : Except PUnit PUnit))
        PUnit.unit).map (fun p =>
        (p.2, p.1.limits.map fun l => (l._total_calls, l._successful_calls))) =
      some (Except.error PUnit.unit,
        (⟨[init 1 1]⟩ : MultiRateLimiter).limits.map fun l =>
          (l._total_calls + 1, l._successful_calls)) :=
  claim_C2_composite_failure_net_effect ⟨[init 1 1]⟩ 0 _ PUnit.unit PUnit.unit
    (by decide) (by decide) rfl

open SingleRateLimiter in
/-- C7: a composite limiter with no members returns the int 0 sentinel from
its stats, never blocks in wait, and its call runs the operation with no
admission or counting, returning the operation's result unchanged. -/
theorem claim_C7_empty_composite_never_blocks {α ε β : Type}
    (m : MultiRateLimiter) (hm : m.limits = []) (now : ℕ)
    (method : Option (α → Except ε β)) (args : α) :
    m.calls = CallsResult.sentinel 0 ∧ m.wait = some () ∧
      m.call now method args = some (m, evalMethod method args) := by
  cases m with
  | mk ls =>
    simp only at hm
    subst hm
    exact ⟨rfl, rfl, rfl⟩

open SingleRateLimiter in
/-- Witness for C7 on the empty composite with a succeeding operation. -/
theorem claim_C7_empty_composite_never_blocks_witness :
    (⟨[]⟩ : MultiRateLimiter).calls = CallsResult.sentinel 0 ∧
      (⟨[]⟩ : MultiRateLimiter).wait = some () ∧
      (⟨[]⟩ : MultiRateLimiter).call 4
          (some fun _ : PUnit => (Except.ok PUnit.unit : Except PUnit PUnit))
          PUnit.unit =
        some (⟨[]⟩,
          evalMethod
            (some fun _ : PUnit => (Except.ok PUnit.unit : Except PUnit PUnit))
            PUnit.unit) :=
  claim_C7_empty_composite_never_blocks ⟨[]⟩ rfl 4 _ PUnit.unit

open SingleRateLimiter in
/-- C10: both call paths invoke the wrapped method applied to the given
arguments and return exactly the value the method produced (wrapped as a
non-null result). -/
theorem claim_C10_method_applied_to_args {α ε β : Type}
    (s : SingleRateLimiter) (m : MultiRateLimiter) (now : ℕ)
    (f : α → Except ε β) (args : α) (v : β)
    (hs : s.semaphore ≠ 0) (hm : ∀ l ∈ m.limits, l.semaphore ≠ 0)
    (hv : f args = Except.ok v) :
    ((s.call now (some f) args).map fun p => p.2) =
        some (Except.ok (some v)) ∧
      ((m.call now (some f) args).map fun p => p.2) =
        some (Except.ok (some v)) := by
  have hE : evalMethod (some f) args = Except.ok (some v) := by
    simp [evalMethod, hv]
  obtain ⟨ls', h1, -, -⟩ := seqCount_spec now true m.limits hm
  constructor
  · rw [call_eq _ _ _ _ hs, Option.map_some', hE]
  · simp only [MultiRateLimiter.call, MultiRateLimiter.wait,
      seqWait_some _ hm, Option.some_bind, hE, isSuccess, h1,
      Option.map_some']

open SingleRateLimiter in
/-- Witness for C10 with a one-member composite and a method returning a
concrete value. -/
theorem claim_C10_method_applied_to_args_witness :
    (((init 1 1).call 6
          (some fun _ : PUnit => (Except.ok PUnit.unit : Except PUnit PUnit))
          PUnit.unit).map fun p => p.2) =
        some (Except.ok (some PUnit.unit)) ∧
      (((⟨[init 1 1]⟩ : MultiRateLimiter).call 6
          (some fun _ : PUnit => (Except.ok PUnit.unit : Except PUnit PUnit))
          PUnit.unit).map fun p => p.2) =
        some (Except.ok (some PUnit.unit)) :=
  claim_C10_method_applied_to_args (init 1 1) ⟨[init 1 1]⟩ 6 _ PUnit.unit
    PUnit.unit (by decide) (by decide) rfl

/-- A composite call blocks when some member has no token available. -/
lemma mcall_blocked {α ε β : Type} (m : MultiRateLimiter) (now : ℕ)
    (method : Option (α → Except ε β)) (args : α)
    (h : ∃ l ∈ m.limits, l.semaphore = 0) :
    m.call now method args = none := by
  simp only [MultiRateLimiter.call, MultiRateLimiter.wait, seqWait_none _ h,
    Option.none_bind]

open SingleRateLimiter in
/-- A composite call with no method on a two-member composite with tokens in
both members admits and takes one token from each member. -/
lemma mcall_none_two (a b : SingleRateLimiter) (now : ℕ)
    (ha : a.semaphore ≠ 0) (hb : b.semaphore ≠ 0) :
    MultiRateLimiter.call ⟨[a, b]⟩ now
        (none : Option (PUnit → Except PUnit PUnit)) PUnit.unit =
      some (⟨[a.callPost now true, b.callPost now true]⟩, Except.ok none) := by
  have hw : seqWait [a, b] = some () := by
    refine seqWait_some _ ?_
    intro l hl
    rcases List.mem_cons.mp hl with rfl | hl'
    · exact ha
    · rcases List.mem_cons.mp hl' with rfl | hl''
      · exact hb
      · simp at hl''
  simp only [MultiRateLimiter.call, MultiRateLimiter.wait, hw,
    Option.some_bind, seqCount, call_eq _ _ _ _ ha, call_eq _ _ _ _ hb,
    Option.some_bind, Option.map_some', evalMethod, isSuccess]
  simp

/-- Running k composite calls on a two-member composite with at least k
tokens in each member completes and takes k tokens from each member. -/
lemma mrun_two (now : ℕ) :
    ∀ (k : ℕ) (a b : SingleRateLimiter), k ≤ a.semaphore →
      k ≤ b.semaphore →
      ∃ a' b', MultiRateLimiter.mrunCalls ⟨[a, b]⟩ now k = some ⟨[a', b']⟩ ∧
        a'.semaphore = a.semaphore - k ∧ b'.semaphore = b.semaphore - k := by
  intro k
  induction k with
  | zero =>
    intro a b _ _
    exact ⟨a, b, rfl, by omega, by omega⟩
  | succ k ih =>
    intro a b ha hb
    have ha0 : a.semaphore ≠ 0 := by omega
    have hb0 : b.semaphore ≠ 0 := by omega
    simp only [MultiRateLimiter.mrunCalls]
    rw [mcall_none_two a b now ha0 hb0, Option.some_bind]
    obtain ⟨a', b', h1, h2, h3⟩ :=
      ih (a.callPost now true) (b.callPost now true)
        (by rw [SingleRateLimiter.callPost_semaphore]; omega)
        (by rw [SingleRateLimiter.callPost_semaphore]; omega)
    refine ⟨a', b', h1, ?_, ?_⟩
    · rw [h2, SingleRateLimiter.callPost_semaphore]
      omega
    · rw [h3, SingleRateLimiter.callPost_semaphore]
      omega

/-- Peeling a composite run from the back: k + 1 calls are k calls followed
by one more. -/
lemma mrun_succ_eq (now : ℕ) :
    ∀ (k : ℕ) (m : MultiRateLimiter),
      MultiRateLimiter.mrunCalls m now (k + 1) =
        (MultiRateLimiter.mrunCalls m now k).bind fun m' =>
          (MultiRateLimiter.call m' now
              (none : Option (PUnit → Except PUnit PUnit)) PUnit.unit).map
            fun p => p.1 := by
  intro k
  induction k with
  | zero =>
    intro m
    simp only [MultiRateLimiter.mrunCalls, Option.some_bind]
    rcases MultiRateLimiter.call m now
        (none : Option (PUnit → Except PUnit PUnit)) PUnit.unit with _ | p
    · rfl
    · rfl
  | succ k ih =>
    intro m
    simp only [MultiRateLimiter.mrunCalls]
    rcases MultiRateLimiter.call m now
        (none : Option (PUnit → Except PUnit PUnit)) PUnit.unit with _ | p
    · simp
    · simp only [Option.some_bind]
      exact ih p.1

open SingleRateLimiter in
/-- C6: a composite over members with capacities c1 and c2, driven by a
single sequential caller, admits exactly min c1 c2 calls before any call
blocks: the run of min c1 c2 composite calls completes, and the run with one
more call blocks. -/
theorem claim_C6_composite_admits_min (c1 c2 e1 e2 now : ℕ) :
    (MultiRateLimiter.mrunCalls (MultiRateLimiter.init [(c1, e1), (c2, e2)])
        now (min c1 c2)).isSome = true ∧
      MultiRateLimiter.mrunCalls (MultiRateLimiter.init [(c1, e1), (c2, e2)])
        now (min c1 c2 + 1) = none := by
  have hm : MultiRateLimiter.init [(c1, e1), (c2, e2)] =
      ⟨[init c1 e1, init c2 e2]⟩ := rfl
  obtain ⟨a', b', h1, h2, h3⟩ :=
    mrun_two now (min c1 c2) (init c1 e1) (init c2 e2)
      (show min c1 c2 ≤ c1 by omega) (show min c1 c2 ≤ c2 by omega)
  constructor
  · rw [hm, h1]
    rfl
  · rw [hm, mrun_succ_eq, h1, Option.some_bind, mcall_blocked]
    · rfl
    · rcases Nat.le_total c1 c2 with h | h
      · refine ⟨a', by simp, ?_⟩
        rw [h2]
        show c1 - min c1 c2 = 0
        omega
      · refine ⟨b', by simp, ?_⟩
        rw [h3]
        show c2 - min c1 c2 = 0
        omega
